import Mathlib

/-!
Verification of the Go worker-pool repository (`go-workerpool-pattern`) and the
fluent builder demo.

The worker pool (`workerpool.go` for the single task type, `workerpool2.go` for
the heterogeneous `MultiTask` variant) is embedded as a small-step transition
system.  One state records everything a running call of `Run` can observe:

* `tasks`   — the pool's task slice (`Tasks` / `MultiTasks`);
* `conc`    — the pool's `Concurrency` field (a Go `int`, so `Int` here);
* `queue`   — the buffer of the task channel (`TaskChan` / `MultiTaskChan`),
              holding the positions (indices into `tasks`) of the values sent
              but not yet received, in FIFO order;
* `closed`  — whether that channel has been closed;
* `chanGen` — a generation counter bumped each time `Run` executes
              `make(chan …)`, so that channel freshness is observable;
* `wg`      — the counter of the `sync.WaitGroup` field `wg`;
* `processed` — ghost instrumentation: how many times `Process()` has been
              invoked on the task at each position;
* `workers` — the statuses of the worker goroutines spawned so far;
* `pc`      — the program counter of the goroutine executing `Run`.

Steps of the transition system correspond line by line to `Run` and `worker`;
worker steps interleave freely with the dispatcher's steps.
-/

namespace WorkerPoolModel

/-- Status of one worker goroutine (`worker` method): blocked in
`for task := range wp.MultiTaskChan` (`idle`), executing `task.Process()` /
`wp.wg.Done()` for the task at position `i` (`running i`), or exited the
range loop after the channel was drained and closed (`done`). -/
inductive WStatus where
  | idle
  | running (i : Nat)
  | done
  deriving DecidableEq

/-- Program counter of the goroutine executing `Run`: before
`make(chan …, len(tasks))` (`start`); in the worker-spawning loop having
spawned `k` workers (`spawning k`); past `wg.Add(len(tasks))` and having sent
`k` tasks (`sending k`); past `close(chan)`, blocked in `wg.Wait()`
(`waiting`); returned from `Run` (`returned`). -/
inductive MainPC where
  | start
  | spawning (k : Nat)
  | sending (k : Nat)
  | waiting
  | returned
  deriving DecidableEq

/-- Execution state of one call of `Run` on a pool, generic in the element
type `α` of the task slice (`Task` for `WorkerPool`, `MultiTask` for
`NewWorkerPool`).  The channel buffer stores task positions; the task value
sent at position `k` is `tasks[k]`. -/
structure PState (α : Type) where
  tasks : List α
  conc : Int
  queue : List Nat
  closed : Bool
  chanGen : Nat
  wg : Int
  processed : Nat → Nat
  workers : List WStatus
  pc : MainPC

/-- Capacity of the channel created by `Run`:
`make(chan MultiTask, len(wp.MultiTasks))` (resp.
`make(chan Task, len(wp.Tasks))`) makes a buffered channel whose capacity is
the length of the task slice. -/
def chanCap {α : Type} (s : PState α) : Nat := s.tasks.length

/-- Boolean test for a worker currently executing a task. -/
def isRunning : WStatus → Bool
  | .running _ => true
  | _ => false

/-- Boolean test for a worker blocked on the channel receive. -/
def isIdle : WStatus → Bool
  | .idle => true
  | _ => false

/-- Number of workers currently executing `Process()`. -/
def runCount (ws : List WStatus) : Nat := ws.countP isRunning

/-- Small-step semantics of one `Run` call interleaved with its workers.

Dispatcher steps (the goroutine that called `Run`):
* `mkChan`    — `wp.MultiTaskChan = make(chan MultiTask, len(wp.MultiTasks))`:
  installs a fresh, open, empty channel;
* `spawn`     — one iteration of `for i := 0; i < wp.Concurrency; i++ { go wp.worker() }`;
* `addWait`   — loop exit followed by `wp.wg.Add(len(wp.MultiTasks))`;
* `send`      — one iteration of `for _, task := range wp.MultiTasks { wp.MultiTaskChan <- task }`;
  a send on a buffered channel is enabled only while the buffer is not full;
* `closeChan` — `close(wp.MultiTaskChan)` after the send loop;
* `waitDone`  — `wp.wg.Wait()` unblocks exactly when the counter is zero.

Worker steps (any spawned worker, at any time):
* `recv`       — `for task := range wp.MultiTaskChan` dequeues the oldest
  buffered task and invokes `task.Process()` (counted in `processed`);
* `finish`     — `task.Process()` returns and `wp.wg.Done()` decrements the
  counter;
* `exitWorker` — the range loop terminates when the channel is empty and
  closed. -/
inductive Step {α : Type} : PState α → PState α → Prop where
  | mkChan (s : PState α) :
      s.pc = .start →
      Step s { s with
                queue := [], closed := false, chanGen := s.chanGen + 1,
                pc := .spawning 0 }
  | spawn (s : PState α) (k : Nat) :
      s.pc = .spawning k → (k : Int) < s.conc →
      Step s { s with workers := s.workers ++ [.idle], pc := .spawning (k + 1) }
  | addWait (s : PState α) (k : Nat) :
      s.pc = .spawning k → ¬ ((k : Int) < s.conc) →
      Step s { s with wg := s.wg + (s.tasks.length : Int), pc := .sending 0 }
  | send (s : PState α) (k : Nat) :
      s.pc = .sending k → k < s.tasks.length → s.queue.length < chanCap s →
      Step s { s with queue := s.queue ++ [k], pc := .sending (k + 1) }
  | closeChan (s : PState α) (k : Nat) :
      s.pc = .sending k → ¬ (k < s.tasks.length) →
      Step s { s with closed := true, pc := .waiting }
  | waitDone (s : PState α) :
      s.pc = .waiting → s.wg = 0 →
      Step s { s with pc := .returned }
  | recv (s : PState α) (w i : Nat) (rest : List Nat) :
      s.workers.get? w = some .idle → s.queue = i :: rest →
      Step s { s with
                queue := rest, workers := s.workers.set w (.running i),
                processed := fun j => if j = i then s.processed j + 1 else s.processed j }
  | finish (s : PState α) (w i : Nat) :
      s.workers.get? w = some (.running i) →
      Step s { s with workers := s.workers.set w .idle, wg := s.wg - 1 }
  | exitWorker (s : PState α) (w : Nat) :
      s.workers.get? w = some .idle → s.queue = [] → s.closed = true →
      Step s { s with workers := s.workers.set w .done }

/-- A state at the entry of `Run`: the dispatcher is at the first statement,
no worker has been spawned by this call, and the `WaitGroup` counter and the
ghost invocation counters are zero.  The channel fields (`queue`, `closed`,
`chanGen`) are unconstrained — they may hold a leftover channel from an
earlier `Run` call; the first statement replaces it. -/
def Init {α : Type} (s : PState α) : Prop :=
  s.pc = .start ∧ s.workers = [] ∧ s.wg = 0 ∧ ∀ j, s.processed j = 0

/-- States reachable by interleaved dispatcher and worker steps. -/
def Reachable {α : Type} (s t : PState α) : Prop :=
  Relation.ReflTransGen Step s t

/-- Updating one list entry moves `countP` by the difference between the new
and the old entry's contribution. -/
theorem countP_set_add {β : Type} (p : β → Bool) :
    ∀ (l : List β) (n : Nat) (a b : β), l.get? n = some a →
      (l.set n b).countP p + (if p a then 1 else 0) =
        l.countP p + (if p b then 1 else 0) := by
  intro l
  induction l with
  | nil => intro n a b h; simp at h
  | cons x t ih =>
    intro n a b h
    cases n with
    | zero =>
      simp only [List.get?] at h
      cases h
      simp [List.countP_cons, Nat.add_comm, Nat.add_assoc, Nat.add_left_comm]
    | succ m =>
      simp only [List.get?] at h
      have := ih m a b h
      simp only [List.set, List.countP_cons]
      omega

end WorkerPoolModel

namespace WorkerPoolModel

/-- Task from `workerpool.go`: `type Task struct { Id int }`. -/
structure Task where
  Id : Int
  deriving DecidableEq

/-- Method `(t *Task) Process()` from `workerpool.go`.  The body prints one
line and sleeps; it assigns no field of the receiver, so the method result is
the unchanged receiver together with the console output. -/
def Task.Process (t : Task) : Task × List String :=
  (t, ["Processing task with ID: " ++ toString t.Id])

/-- Task variant from `workerpool2.go`:
`type EmailTask struct { EmailId, Subject, Message string }`. -/
structure EmailTask where
  EmailId : String
  Subject : String
  Message : String
  deriving DecidableEq

/-- Method `(e *EmailTask) Process()`: prints one line and sleeps; assigns no
field of the receiver. -/
def EmailTask.Process (e : EmailTask) : EmailTask × List String :=
  (e, ["Sending email to: " ++ e.EmailId])

/-- Task variant from `workerpool2.go`:
`type ImageProcessingTask struct { ImageURL string }`. -/
structure ImageProcessingTask where
  ImageURL : String
  deriving DecidableEq

/-- Method `(e *ImageProcessingTask) Process()`: prints one line and sleeps;
assigns no field of the receiver. -/
def ImageProcessingTask.Process (e : ImageProcessingTask) : ImageProcessingTask × List String :=
  (e, ["Processing image from URL: " ++ e.ImageURL])

/-- The `MultiTask` interface of `workerpool2.go` with its two implementors
in this repository (`main.go` stores `*EmailTask` and `*ImageProcessingTask`
values in the `[]MultiTask` slice). -/
inductive MultiTask where
  | email (e : EmailTask)
  | image (t : ImageProcessingTask)
  deriving DecidableEq

/-- Dynamic dispatch of `task.Process()` through the `MultiTask` interface. -/
def MultiTask.Process : MultiTask → MultiTask × List String
  | .email e => (.email (e.Process).1, (e.Process).2)
  | .image t => (.image (t.Process).1, (t.Process).2)

/-- Pool from `workerpool.go`; the `TaskChan` and `wg` fields are runtime
state created inside `Run` and are carried by `PState`. -/
structure WorkerPool where
  Tasks : List Task
  Concurrency : Int

/-- Pool from `workerpool2.go`; the `MultiTaskChan` and `wg` fields are
runtime state created inside `Run` and are carried by `PState`. -/
structure NewWorkerPool where
  MultiTasks : List MultiTask
  Concurrency : Int

/-- The state in which a call `wp.Run()` on a `WorkerPool` begins: an entry
state whose task slice and concurrency are the pool's fields. -/
def WorkerPool.RunStart (wp : WorkerPool) (s : PState Task) : Prop :=
  Init s ∧ s.tasks = wp.Tasks ∧ s.conc = wp.Concurrency

/-- The state in which a call `wp.Run()` on a `NewWorkerPool` begins: an
entry state whose task slice and concurrency are the pool's fields. -/
def NewWorkerPool.RunStart (wp : NewWorkerPool) (s : PState MultiTask) : Prop :=
  Init s ∧ s.tasks = wp.MultiTasks ∧ s.conc = wp.Concurrency

/-- Canonical entry state for `wp.Run()` on a fresh `WorkerPool` literal, as
built in `main.go` (channel field still at its zero value). -/
def WorkerPool.start (wp : WorkerPool) : PState Task :=
  { tasks := wp.Tasks, conc := wp.Concurrency, queue := [], closed := false,
    chanGen := 0, wg := 0, processed := fun _ => 0, workers := [], pc := .start }

/-- Canonical entry state for `wp.Run()` on a fresh `NewWorkerPool` literal,
as built in `main.go` (channel field still at its zero value). -/
def NewWorkerPool.start (wp : NewWorkerPool) : PState MultiTask :=
  { tasks := wp.MultiTasks, conc := wp.Concurrency, queue := [], closed := false,
    chanGen := 0, wg := 0, processed := fun _ => 0, workers := [], pc := .start }

/-- Invariant of the phase after `wg.Add(len(tasks))`, parametrized by the
number `sent` of tasks already sent.  With `r` the number of tasks received
by workers and `f` the number of `wg.Done()` calls so far: every worker
slot is accounted for, the channel buffer holds exactly the positions
`[r, sent)` in order, each of the first `r` positions has had `Process()`
invoked exactly once and no other position at all, and the `WaitGroup`
counter is the task count minus the completed count. -/
def phaseInv {α : Type} (s : PState α) (sent : Nat) : Prop :=
  s.workers.length = s.conc.toNat ∧
  ∃ r f : Nat, f + runCount s.workers = r ∧
    r + s.queue.length = sent ∧
    s.queue = List.range' r s.queue.length ∧
    (∀ j, s.processed j = if j < r then 1 else 0) ∧
    s.wg = (s.tasks.length : Int) - (f : Int)

/-- Global invariant, split by the dispatcher's program counter. -/
def InvAt {α : Type} (s : PState α) : MainPC → Prop
  | .start => s.workers = [] ∧ s.wg = 0 ∧ (∀ j, s.processed j = 0)
  | .spawning k => s.closed = false ∧ s.queue = [] ∧ s.workers.length = k ∧
      k ≤ s.conc.toNat ∧ (∀ w ∈ s.workers, w = .idle) ∧ s.wg = 0 ∧
      (∀ j, s.processed j = 0)
  | .sending k => s.closed = false ∧ k ≤ s.tasks.length ∧ phaseInv s k
  | .waiting => s.closed = true ∧ phaseInv s s.tasks.length
  | .returned => s.closed = true ∧ s.wg = 0 ∧ phaseInv s s.tasks.length

/-- Global invariant of a `Run` execution. -/
def Inv {α : Type} (s : PState α) : Prop := InvAt s s.pc

/-- Receiving the oldest buffered task preserves the phase invariant: the
dequeued position is exactly `r`, its invocation count goes from zero to one,
and one more worker is running. -/
theorem phaseInv_recv {α : Type} {s : PState α} {sent w i : Nat} {rest : List Nat}
    (hph : phaseInv s sent) (hw : s.workers.get? w = some .idle)
    (hq : s.queue = i :: rest) :
    phaseInv { s with
                queue := rest, workers := s.workers.set w (.running i),
                processed := fun j => if j = i then s.processed j + 1 else s.processed j }
      sent := by
  obtain ⟨hlen, r, f, hrf, hrq, hqr, hpr, hwg⟩ := hph
  have hlq : s.queue.length = rest.length + 1 := by rw [hq]; simp
  have hqr' : (i :: rest : List Nat) = r :: List.range' (r + 1) rest.length := by
    rw [← hq, hqr, hlq, List.range'_succ]
  have hir : i = r := by injection hqr'
  have hrest : rest = List.range' (r + 1) rest.length := by injection hqr'
  have hcnt : runCount (s.workers.set w (.running i)) = runCount s.workers + 1 := by
    have h := countP_set_add isRunning s.workers w WStatus.idle (.running i) hw
    simp only [runCount]
    simp [isRunning] at h
    omega
  refine ⟨by simpa using hlen, r + 1, f, ?_, ?_, ?_, ?_, ?_⟩
  · show f + runCount (s.workers.set w (.running i)) = r + 1
    omega
  · show r + 1 + rest.length = sent
    omega
  · simpa using hrest
  · intro j
    show (if j = i then s.processed j + 1 else s.processed j) = if j < r + 1 then 1 else 0
    rw [hir]
    by_cases hjr : j = r
    · rw [if_pos hjr, hpr j, hjr]
      simp
    · rw [if_neg hjr, hpr j]
      by_cases hlt : j < r
      · rw [if_pos hlt, if_pos (by omega)]
      · rw [if_neg hlt, if_neg (by omega)]
  · simpa using hwg

/-- A worker finishing `Process()`/`wg.Done()` preserves the phase
invariant: one fewer worker running, one more completed, counter one lower. -/
theorem phaseInv_finish {α : Type} {s : PState α} {sent w i : Nat}
    (hph : phaseInv s sent) (hw : s.workers.get? w = some (.running i)) :
    phaseInv { s with workers := s.workers.set w .idle, wg := s.wg - 1 } sent := by
  obtain ⟨hlen, r, f, hrf, hrq, hqr, hpr, hwg⟩ := hph
  have hcnt : runCount (s.workers.set w .idle) + 1 = runCount s.workers := by
    have h := countP_set_add isRunning s.workers w (.running i) WStatus.idle hw
    simp only [runCount]
    simp [isRunning] at h
    omega
  refine ⟨by simpa using hlen, r, f + 1, ?_, hrq, hqr, hpr, ?_⟩
  · show f + 1 + runCount (s.workers.set w .idle) = r
    omega
  · show s.wg - 1 = (s.tasks.length : Int) - ((f + 1 : Nat) : Int)
    rw [hwg]
    push_cast
    ring

/-- A worker leaving the drained, closed channel preserves the phase
invariant: an idle worker becoming `done` changes no count. -/
theorem phaseInv_exit {α : Type} {s : PState α} {sent w : Nat}
    (hph : phaseInv s sent) (hw : s.workers.get? w = some .idle) :
    phaseInv { s with workers := s.workers.set w .done } sent := by
  obtain ⟨hlen, r, f, hrf, hrq, hqr, hpr, hwg⟩ := hph
  have hcnt : runCount (s.workers.set w .done) = runCount s.workers := by
    have h := countP_set_add isRunning s.workers w WStatus.idle .done hw
    simp only [runCount]
    simp [isRunning] at h
    omega
  refine ⟨by simpa using hlen, r, f, ?_, hrq, hqr, hpr, hwg⟩
  show f + runCount (s.workers.set w .done) = r
  omega

/-- In a state satisfying the phase invariant for the full batch whose
`WaitGroup` counter is zero, everything is finished: empty buffer, no
running worker, and every position below the task count processed exactly
once. -/
theorem phase_done {α : Type} {s : PState α}
    (hph : phaseInv s s.tasks.length) (hwg : s.wg = 0) :
    s.queue = [] ∧ runCount s.workers = 0 ∧
      (∀ j, s.processed j = if j < s.tasks.length then 1 else 0) := by
  obtain ⟨hlen, r, f, hrf, hrq, hqr, hpr, hwg'⟩ := hph
  have hf : f = s.tasks.length := by
    rw [hwg'] at hwg
    omega
  have hrc : runCount s.workers = 0 ∧ s.queue.length = 0 := by omega
  refine ⟨List.length_eq_zero.mp hrc.2, hrc.1, ?_⟩
  have hr : r = s.tasks.length := by omega
  intro j
  rw [hpr j, hr]

end WorkerPoolModel

namespace WorkerPoolModel

/-- Every entry state satisfies the global invariant. -/
theorem inv_init {α : Type} {s : PState α} (h : Init s) : Inv s := by
  obtain ⟨hpc, hwk, hwg, hpr⟩ := h
  unfold Inv
  rw [hpc]
  exact ⟨hwk, hwg, hpr⟩

/-- The global invariant is preserved by every dispatcher and worker step. -/
theorem inv_step {α : Type} {s t : PState α} (hI : Inv s) (hst : Step s t) : Inv t := by
  cases hst with
  | mkChan hpc =>
      unfold Inv at hI ⊢
      rw [hpc] at hI
      simp only [InvAt] at hI
      show InvAt _ (MainPC.spawning 0)
      refine ⟨rfl, rfl, ?_, Nat.zero_le _, ?_, hI.2.1, hI.2.2⟩
      · show s.workers.length = 0
        rw [hI.1]; rfl
      · show ∀ w ∈ s.workers, w = WStatus.idle
        rw [hI.1]; simp
  | spawn k hpc hlt =>
      unfold Inv at hI ⊢
      rw [hpc] at hI
      simp only [InvAt] at hI
      obtain ⟨hcl, hq, hlen, hk, hall, hwg, hpr⟩ := hI
      show InvAt _ (MainPC.spawning (k + 1))
      refine ⟨hcl, hq, ?_, ?_, ?_, hwg, hpr⟩
      · show (s.workers ++ [WStatus.idle]).length = k + 1
        rw [List.length_append, List.length_singleton, hlen]
      · exact Nat.succ_le_of_lt (Int.lt_toNat.mpr hlt)
      · intro w hw
        rcases List.mem_append.mp hw with h | h
        · exact hall w h
        · simpa using h
  | addWait k hpc hnlt =>
      unfold Inv at hI ⊢
      rw [hpc] at hI
      simp only [InvAt] at hI
      obtain ⟨hcl, hq, hlen, hk, hall, hwg, hpr⟩ := hI
      show InvAt _ (MainPC.sending 0)
      refine ⟨hcl, Nat.zero_le _, ?_, 0, 0, ?_, ?_, ?_, ?_, ?_⟩
      · show s.workers.length = s.conc.toNat
        rw [hlen]
        exact Nat.le_antisymm hk (Int.toNat_le.mpr (Int.not_lt.mp hnlt))
      · show 0 + runCount s.workers = 0
        have : runCount s.workers = 0 := by
          unfold runCount
          exact List.countP_eq_zero.mpr fun w hw => by rw [hall w hw]; simp [isRunning]
        omega
      · show 0 + s.queue.length = 0
        rw [hq]; rfl
      · show s.queue = List.range' 0 s.queue.length
        rw [hq]; rfl
      · intro j
        show s.processed j = if j < 0 then 1 else 0
        rw [hpr j]; simp
      · show s.wg + (s.tasks.length : Int) = (s.tasks.length : Int) - ((0 : Nat) : Int)
        rw [hwg]
        omega
  | send k hpc hk hcap =>
      unfold Inv at hI ⊢
      rw [hpc] at hI
      simp only [InvAt] at hI
      obtain ⟨hcl, hkN, hlen, r, f, hrf, hrq, hqr, hpr, hwg⟩ := hI
      show InvAt _ (MainPC.sending (k + 1))
      refine ⟨hcl, hk, hlen, r, f, hrf, ?_, ?_, hpr, hwg⟩
      · show r + (s.queue ++ [k]).length = k + 1
        rw [List.length_append, List.length_singleton]
        omega
      · show s.queue ++ [k] = List.range' r (s.queue ++ [k]).length
        have hk' : k = r + s.queue.length := by omega
        have hcat : List.range' r (s.queue.length + 1) =
            List.range' r s.queue.length ++ [r + s.queue.length] :=
          List.range'_1_concat r s.queue.length
        rw [List.length_append, List.length_singleton, hcat, ← hqr, hk']
  | closeChan k hpc hnk =>
      unfold Inv at hI ⊢
      rw [hpc] at hI
      simp only [InvAt] at hI
      obtain ⟨hcl, hkN, hph⟩ := hI
      show InvAt _ MainPC.waiting
      have hkEq : k = s.tasks.length := Nat.le_antisymm hkN (Nat.not_lt.mp hnk)
      exact ⟨rfl, by rw [← hkEq]; exact hph⟩
  | waitDone hpc hwg =>
      unfold Inv at hI ⊢
      rw [hpc] at hI
      simp only [InvAt] at hI
      show InvAt _ MainPC.returned
      exact ⟨hI.1, hwg, hI.2⟩
  | recv w i rest hw hq =>
      unfold Inv at hI ⊢
      show InvAt _ s.pc
      cases hpc : s.pc with
      | start =>
          rw [hpc] at hI
          simp only [InvAt] at hI
          rw [hI.1] at hw
          simp at hw
      | spawning k =>
          rw [hpc] at hI
          simp only [InvAt] at hI
          rw [hI.2.1] at hq
          exact absurd hq.symm (List.cons_ne_nil i rest)
      | sending k =>
          rw [hpc] at hI
          simp only [InvAt] at hI
          exact ⟨hI.1, hI.2.1, phaseInv_recv hI.2.2 hw hq⟩
      | waiting =>
          rw [hpc] at hI
          simp only [InvAt] at hI
          exact ⟨hI.1, phaseInv_recv hI.2 hw hq⟩
      | returned =>
          rw [hpc] at hI
          simp only [InvAt] at hI
          have := (phase_done hI.2.2 hI.2.1).1
          rw [this] at hq
          exact absurd hq.symm (List.cons_ne_nil i rest)
  | finish w i hw =>
      unfold Inv at hI ⊢
      show InvAt _ s.pc
      cases hpc : s.pc with
      | start =>
          rw [hpc] at hI
          simp only [InvAt] at hI
          rw [hI.1] at hw
          simp at hw
      | spawning k =>
          rw [hpc] at hI
          simp only [InvAt] at hI
          have hmem := List.get?_mem hw
          have := hI.2.2.2.2.1 _ hmem
          exact absurd this (by simp)
      | sending k =>
          rw [hpc] at hI
          simp only [InvAt] at hI
          exact ⟨hI.1, hI.2.1, phaseInv_finish hI.2.2 hw⟩
      | waiting =>
          rw [hpc] at hI
          simp only [InvAt] at hI
          exact ⟨hI.1, phaseInv_finish hI.2 hw⟩
      | returned =>
          rw [hpc] at hI
          simp only [InvAt] at hI
          have hrc := (phase_done hI.2.2 hI.2.1).2.1
          have hmem := List.get?_mem hw
          have hpos : 0 < runCount s.workers := by
            unfold runCount
            exact List.countP_pos_iff.mpr ⟨_, hmem, by simp [isRunning]⟩
          omega
  | exitWorker w hw hq hc =>
      unfold Inv at hI ⊢
      show InvAt _ s.pc
      cases hpc : s.pc with
      | start =>
          rw [hpc] at hI
          simp only [InvAt] at hI
          rw [hI.1] at hw
          simp at hw
      | spawning k =>
          rw [hpc] at hI
          simp only [InvAt] at hI
          rw [hI.1] at hc
          exact absurd hc (by simp)
      | sending k =>
          rw [hpc] at hI
          simp only [InvAt] at hI
          rw [hI.1] at hc
          exact absurd hc (by simp)
      | waiting =>
          rw [hpc] at hI
          simp only [InvAt] at hI
          exact ⟨hI.1, phaseInv_exit hI.2 hw⟩
      | returned =>
          rw [hpc] at hI
          simp only [InvAt] at hI
          exact ⟨hI.1, hI.2.1, phaseInv_exit hI.2.2 hw⟩

/-- Every state reachable from an entry state satisfies the invariant. -/
theorem inv_reachable {α : Type} {s0 s : PState α} (hI : Init s0)
    (hR : Reachable s0 s) : Inv s := by
  have hR' : Relation.ReflTransGen Step s0 s := hR
  clear hR
  induction hR' with
  | refl => exact inv_init hI
  | tail _ hbc ih => exact inv_step ih hbc

/-- No step of `Run` or of a worker modifies the pool's task slice or its
`Concurrency` field. -/
theorem step_frame {α : Type} {s t : PState α} (h : Step s t) :
    t.tasks = s.tasks ∧ t.conc = s.conc := by
  cases h <;> exact ⟨rfl, rfl⟩

/-- Along every execution the pool's task slice and `Concurrency` field keep
the values they had at the call of `Run`. -/
theorem reachable_frame {α : Type} {s0 s : PState α} (hR : Reachable s0 s) :
    s.tasks = s0.tasks ∧ s.conc = s0.conc := by
  have hR' : Relation.ReflTransGen Step s0 s := hR
  clear hR
  induction hR' with
  | refl => exact ⟨rfl, rfl⟩
  | tail _ hbc ih =>
      have := step_frame hbc
      exact ⟨this.1.trans ih.1, this.2.trans ih.2⟩

end WorkerPoolModel

namespace WorkerPoolModel

/-- Characterization of any state in which `Run` has returned: the channel is
closed and drained, the `WaitGroup` counter is zero, exactly
`Concurrency.toNat` workers were spawned, none is still running, and every
task position below the batch length has had `Process()` invoked exactly
once — positions beyond it never. -/
theorem returned_inv {α : Type} {s0 s : PState α} (hI : Init s0)
    (hR : Reachable s0 s) (hpc : s.pc = .returned) :
    s.closed = true ∧ s.wg = 0 ∧ s.workers.length = s.conc.toNat ∧
      s.queue = [] ∧ runCount s.workers = 0 ∧
      (∀ j, s.processed j = if j < s.tasks.length then 1 else 0) := by
  have hInv := inv_reachable hI hR
  unfold Inv at hInv
  rw [hpc] at hInv
  simp only [InvAt] at hInv
  obtain ⟨hc, hwg, hph⟩ := hInv
  have hd := phase_done hph hwg
  exact ⟨hc, hwg, hph.1, hd.1, hd.2.1, hd.2.2⟩

/-- A worker list with no running worker consists of idle and done workers
only. -/
theorem runCount_zero_cases {ws : List WStatus} (h : runCount ws = 0) :
    ∀ w ∈ ws, w = .idle ∨ w = .done := by
  intro w hw
  cases w with
  | idle => exact Or.inl rfl
  | done => exact Or.inr rfl
  | running i =>
      exfalso
      have : 0 < runCount ws :=
        List.countP_pos_iff.mpr ⟨_, hw, by simp [isRunning]⟩
      omega

/-- Once the channel is drained and closed and every worker is idle or done,
the remaining idle workers can all exit: there is a continuation of the
execution in which every worker has terminated, and that continuation
performs no further `Process()` invocation. -/
theorem drain_aux {α : Type} :
    ∀ (n : Nat) (s : PState α), s.workers.countP isIdle = n → s.closed = true →
      s.queue = [] → (∀ w ∈ s.workers, w = .idle ∨ w = .done) →
      ∃ t, Reachable s t ∧ t.pc = s.pc ∧ t.workers.length = s.workers.length ∧
        (∀ w ∈ t.workers, w = .done) ∧ t.processed = s.processed ∧
        t.tasks = s.tasks ∧ t.conc = s.conc ∧ t.wg = s.wg
  | 0, s, hcnt, hcl, hq, hio => by
      refine ⟨s, Relation.ReflTransGen.refl, rfl, rfl, ?_, rfl, rfl, rfl, rfl⟩
      intro w hw
      rcases hio w hw with h | h
      · exfalso
        have : 0 < s.workers.countP isIdle :=
          List.countP_pos_iff.mpr ⟨w, hw, by rw [h]; rfl⟩
        omega
      · exact h
  | (n + 1), s, hcnt, hcl, hq, hio => by
      have hpos : 0 < s.workers.countP isIdle := by omega
      obtain ⟨a, ham, hai⟩ := List.countP_pos_iff.mp hpos
      have haidle : a = WStatus.idle := by
        cases a with
        | idle => rfl
        | running i => simp [isIdle] at hai
        | done => simp [isIdle] at hai
      obtain ⟨w, hwget⟩ := List.get?_of_mem ham
      rw [haidle] at hwget
      have hstep : Step s { s with workers := s.workers.set w .done } :=
        Step.exitWorker s w hwget hq hcl
      have hcnt' : (s.workers.set w .done).countP isIdle = n := by
        have h := countP_set_add isIdle s.workers w .idle .done hwget
        simp [isIdle] at h
        omega
      have hio' : ∀ x ∈ s.workers.set w .done, x = .idle ∨ x = .done := by
        intro x hx
        rcases List.mem_or_eq_of_mem_set hx with h | h
        · exact hio x h
        · exact Or.inr h
      obtain ⟨t, htr, hpc, hlen, hdone, hproc, hta, hco, hwg⟩ :=
        drain_aux n { s with workers := s.workers.set w .done } hcnt' hcl hq hio'
      refine ⟨t, Relation.ReflTransGen.head hstep htr, hpc, ?_, hdone, hproc, hta, hco, hwg⟩
      rw [hlen]
      exact List.length_set s.workers w .done

/-- Iterating the spawn loop: from `spawning k`, as long as `k + n` does not
exceed `Concurrency.toNat`, the dispatcher can spawn `n` more workers,
touching nothing but the worker list and its own program counter. -/
theorem spawn_many {α : Type} :
    ∀ (n : Nat) (s : PState α) (k : Nat), s.pc = .spawning k →
      k + n ≤ s.conc.toNat →
      ∃ t, Reachable s t ∧ t.pc = .spawning (k + n) ∧
        t.workers = s.workers ++ List.replicate n .idle ∧
        t.tasks = s.tasks ∧ t.conc = s.conc ∧ t.queue = s.queue ∧
        t.closed = s.closed ∧ t.chanGen = s.chanGen ∧ t.wg = s.wg ∧
        t.processed = s.processed
  | 0, s, k, hpc, _ =>
      ⟨s, Relation.ReflTransGen.refl, hpc, by simp, rfl, rfl, rfl, rfl, rfl, rfl, rfl⟩
  | (n + 1), s, k, hpc, hle => by
      have hlt : (k : Int) < s.conc := Int.lt_toNat.mp (by omega)
      have hstep : Step s { s with workers := s.workers ++ [.idle], pc := .spawning (k + 1) } :=
        Step.spawn s k hpc hlt
      obtain ⟨t, htr, hpc', hwk, hta, hco, hq, hcl, hg, hwg, hproc⟩ :=
        spawn_many n { s with workers := s.workers ++ [.idle], pc := .spawning (k + 1) }
          (k + 1) rfl (by exact (by omega : k + 1 + n ≤ s.conc.toNat))
      refine ⟨t, Relation.ReflTransGen.head hstep htr, ?_, ?_, hta, hco, hq, hcl, hg, hwg, hproc⟩
      · rw [hpc']
        congr 1
        omega
      · rw [hwk]
        simp only [List.append_assoc, List.singleton_append]
        rw [← List.replicate_succ]

/-- On an empty batch, `Run` can run to completion with no worker ever
receiving a task: it still spawns `Concurrency.toNat` workers, processes
nothing, and returns. -/
theorem run_empty_terminates {α : Type} (s0 : PState α) (hI : Init s0)
    (hN : s0.tasks = []) :
    ∃ s, Reachable s0 s ∧ s.pc = .returned ∧
      s.workers.length = s0.conc.toNat ∧ (∀ j, s.processed j = 0) ∧
      (∀ w ∈ s.workers, w = .idle) := by
  obtain ⟨hpc, hwk, hwg, hpr⟩ := hI
  have h1 : Step s0 { s0 with
                      queue := [], closed := false, chanGen := s0.chanGen + 1,
                      pc := .spawning 0 } :=
    Step.mkChan s0 hpc
  obtain ⟨t2, htr2, hpc2, hwk2, hta2, hco2, hq2, hcl2, hg2, hwg2, hproc2⟩ :=
    spawn_many s0.conc.toNat
      { s0 with queue := [], closed := false, chanGen := s0.chanGen + 1, pc := .spawning 0 }
      0 rfl (by exact (by omega : 0 + s0.conc.toNat ≤ s0.conc.toNat))
  have hco2' : t2.conc = s0.conc := hco2
  have hta2' : t2.tasks = s0.tasks := hta2
  have h3 : Step t2 { t2 with wg := t2.wg + (t2.tasks.length : Int), pc := .sending 0 } :=
    Step.addWait t2 (0 + s0.conc.toNat) hpc2 (by rw [hco2']; omega)
  have h4 : Step { t2 with wg := t2.wg + (t2.tasks.length : Int), pc := .sending 0 }
      { t2 with wg := t2.wg + (t2.tasks.length : Int), closed := true, pc := .waiting } := by
    refine Step.closeChan _ 0 rfl ?_
    show ¬ 0 < t2.tasks.length
    rw [hta2', hN]
    simp
  have hwgz : t2.wg + (t2.tasks.length : Int) = 0 := by
    rw [hta2', hN, hwg2]
    show (s0.wg + ((List.length ([] : List α) : Nat) : Int)) = 0
    rw [hwg]
    simp
  have h5 : Step { t2 with wg := t2.wg + (t2.tasks.length : Int), closed := true, pc := .waiting }
      { t2 with wg := t2.wg + (t2.tasks.length : Int), closed := true, pc := .returned } :=
    Step.waitDone _ rfl hwgz
  refine ⟨_, Relation.ReflTransGen.tail (Relation.ReflTransGen.tail
      (Relation.ReflTransGen.tail (Relation.ReflTransGen.head h1 htr2) h3) h4) h5,
    rfl, ?_, ?_, ?_⟩
  · show t2.workers.length = s0.conc.toNat
    rw [hwk2]
    simp [hwk]
  · intro j
    show t2.processed j = 0
    rw [hproc2]
    exact hpr j
  · intro w hw
    have hw' : w ∈ t2.workers := hw
    rw [hwk2] at hw'
    rcases List.mem_append.mp hw' with h | h
    · rw [hwk] at h
      simp at h
    · exact List.eq_of_mem_replicate h

end WorkerPoolModel

namespace WorkerPoolModel

/-- The only step of an execution that changes the channel's closed flag
(once past the channel creation) is `close(chan)` itself: it flips the flag
from open to closed, fires exactly when every task of the batch has been
sent, and moves the dispatcher from the send loop directly to `wg.Wait()`. -/
theorem close_transition {α : Type} {s t : PState α} (hInv : Inv s)
    (hst : Step s t) (hnp : s.pc ≠ .start) (hne : s.closed ≠ t.closed) :
    s.closed = false ∧ t.closed = true ∧
      s.pc = .sending s.tasks.length ∧ t.pc = .waiting := by
  cases hst with
  | mkChan hpc => exact absurd hpc hnp
  | spawn k hpc hlt => exact absurd rfl hne
  | addWait k hpc hnlt => exact absurd rfl hne
  | send k hpc hk hcap => exact absurd rfl hne
  | closeChan k hpc hnk =>
      unfold Inv at hInv
      rw [hpc] at hInv
      simp only [InvAt] at hInv
      obtain ⟨hcl, hkN, _⟩ := hInv
      have hkEq : k = s.tasks.length := Nat.le_antisymm hkN (Nat.not_lt.mp hnk)
      exact ⟨hcl, rfl, by rw [hpc, hkEq], rfl⟩
  | waitDone hpc hwg => exact absurd rfl hne
  | recv w i rest hw hq => exact absurd rfl hne
  | finish w i hw => exact absurd rfl hne
  | exitWorker w hw hq hc => exact absurd rfl hne

/-- Dispatcher-phase component of the invariant of a run whose `Concurrency`
is not positive: the worker-spawning loop runs zero times, so after
`wg.Add(len(tasks))` the counter stays at the full task count forever. -/
def NoWorkAt {α : Type} (s : PState α) : MainPC → Prop
  | .start => s.wg = 0
  | .spawning _ => s.wg = 0
  | .sending _ => s.wg = (s.tasks.length : Int)
  | .waiting => s.wg = (s.tasks.length : Int)
  | .returned => False

/-- Invariant of a run with `Concurrency ≤ 0` on a non-empty batch: no
worker exists and the dispatcher can never reach `returned`. -/
def InvNoWorkers {α : Type} (s : PState α) : Prop :=
  s.workers = [] ∧ NoWorkAt s s.pc

/-- Preservation of the no-worker invariant when `Concurrency ≤ 0` and the
batch is non-empty. -/
theorem invNoWorkers_step {α : Type} {s t : PState α} (hcle : s.conc ≤ 0)
    (htne : s.tasks ≠ []) (hI : InvNoWorkers s) (hst : Step s t) :
    InvNoWorkers t := by
  obtain ⟨hwk, hat⟩ := hI
  cases hst with
  | mkChan hpc =>
      rw [hpc] at hat
      simp only [NoWorkAt] at hat
      exact ⟨hwk, hat⟩
  | spawn k hpc hlt =>
      exfalso
      have : (0 : Int) ≤ (k : Int) := Int.natCast_nonneg k
      omega
  | addWait k hpc hnlt =>
      rw [hpc] at hat
      simp only [NoWorkAt] at hat
      refine ⟨hwk, ?_⟩
      show s.wg + (s.tasks.length : Int) = (s.tasks.length : Int)
      rw [hat]
      omega
  | send k hpc hk hcap =>
      rw [hpc] at hat
      simp only [NoWorkAt] at hat
      exact ⟨hwk, hat⟩
  | closeChan k hpc hnk =>
      rw [hpc] at hat
      simp only [NoWorkAt] at hat
      exact ⟨hwk, hat⟩
  | waitDone hpc hwg =>
      exfalso
      rw [hpc] at hat
      simp only [NoWorkAt] at hat
      rw [hat] at hwg
      have : s.tasks.length = 0 := by omega
      exact htne (List.length_eq_zero.mp this)
  | recv w i rest hw hq =>
      exfalso
      rw [hwk] at hw
      simp at hw
  | finish w i hw =>
      exfalso
      rw [hwk] at hw
      simp at hw
  | exitWorker w hw hq hc =>
      exfalso
      rw [hwk] at hw
      simp at hw

/-- Every state reachable from an entry state of a run with
`Concurrency ≤ 0` on a non-empty batch satisfies the no-worker invariant. -/
theorem invNoWorkers_reachable {α : Type} {s0 s : PState α}
    (hcle : s0.conc ≤ 0) (htne : s0.tasks ≠ []) (hI : Init s0)
    (hR : Reachable s0 s) : InvNoWorkers s := by
  have hR' : Relation.ReflTransGen Step s0 s := hR
  clear hR
  induction hR' with
  | refl =>
      obtain ⟨hpc, hwk, hwg, _⟩ := hI
      refine ⟨hwk, ?_⟩
      rw [hpc]
      simp only [NoWorkAt]
      exact hwg
  | tail hab hbc ih =>
      have hfr := reachable_frame hab
      exact invNoWorkers_step (by rw [hfr.2]; exact hcle)
        (by rw [hfr.1]; exact htne) ih hbc

end WorkerPoolModel

namespace WorkerPoolModel

/-- Entry state of a one-task batch with `Concurrency = 1`. -/
def gs0 {α : Type} (a : α) : PState α :=
  { tasks := [a], conc := 1, queue := [], closed := false, chanGen := 0,
    wg := 0, processed := fun _ => 0, workers := [], pc := .start }

/-- After `make(chan …, 1)`. -/
def gs1 {α : Type} (a : α) : PState α :=
  { gs0 a with
    queue := [], closed := false, chanGen := (gs0 a).chanGen + 1,
    pc := .spawning 0 }

/-- After spawning the single worker. -/
def gs2 {α : Type} (a : α) : PState α :=
  { gs1 a with workers := (gs1 a).workers ++ [.idle], pc := .spawning (0 + 1) }

/-- After `wg.Add(1)`. -/
def gs3 {α : Type} (a : α) : PState α :=
  { gs2 a with wg := (gs2 a).wg + ((gs2 a).tasks.length : Int), pc := .sending 0 }

/-- After sending the task at position 0. -/
def gs4 {α : Type} (a : α) : PState α :=
  { gs3 a with queue := (gs3 a).queue ++ [0], pc := .sending (0 + 1) }

/-- After `close(chan)`. -/
def gs5 {α : Type} (a : α) : PState α :=
  { gs4 a with closed := true, pc := .waiting }

/-- After the worker receives the task and invokes `Process()`. -/
def gs6 {α : Type} (a : α) : PState α :=
  { gs5 a with
    queue := ([] : List Nat), workers := (gs5 a).workers.set 0 (.running 0),
    processed := fun j => if j = 0 then (gs5 a).processed j + 1 else (gs5 a).processed j }

/-- After `Process()` returns and the worker calls `wg.Done()`. -/
def gs7 {α : Type} (a : α) : PState α :=
  { gs6 a with workers := (gs6 a).workers.set 0 .idle, wg := (gs6 a).wg - 1 }

/-- After `wg.Wait()` unblocks: `Run` has returned. -/
def gs8 {α : Type} (a : α) : PState α :=
  { gs7 a with pc := .returned }

/-- Complete interleaved execution of `Run` on a one-task batch with one
worker, from the entry state to the returned state. -/
theorem traceG {α : Type} (a : α) : Reachable (gs0 a) (gs8 a) :=
  Relation.ReflTransGen.tail
    (Relation.ReflTransGen.tail
      (Relation.ReflTransGen.tail
        (Relation.ReflTransGen.tail
          (Relation.ReflTransGen.tail
            (Relation.ReflTransGen.tail
              (Relation.ReflTransGen.tail
                (Relation.ReflTransGen.single (Step.mkChan (gs0 a) rfl))
                (Step.spawn (gs1 a) 0 rfl (by show ((0 : Nat) : Int) < 1; decide)))
              (Step.addWait (gs2 a) (0 + 1) rfl
                (by show ¬ ((0 + 1 : Nat) : Int) < 1; decide)))
            (Step.send (gs3 a) 0 rfl (by show 0 < 1; decide)
              (by show 0 < 1; decide)))
          (Step.closeChan (gs4 a) (0 + 1) rfl (by show ¬ 0 + 1 < 1; decide)))
        (Step.recv (gs5 a) 0 0 [] rfl rfl))
      (Step.finish (gs6 a) 0 0 rfl))
    (Step.waitDone (gs7 a) rfl
      (by show (0 : Int) + ((1 : Nat) : Int) - 1 = 0; decide))

/-- The `EmailTask` from `main.go`'s heterogeneous batch, as a `MultiTask`. -/
def taskEx : MultiTask :=
  .email { EmailId := "abc", Subject := "hello abc", Message := "message 1" }

/-- The first `Task` of `main.go`'s homogeneous batch. -/
def tskEx : Task := { Id := 1 }

/-- A one-email pool with one worker. -/
def wpEx : NewWorkerPool := { MultiTasks := [taskEx], Concurrency := 1 }

/-- A one-task pool with one worker. -/
def wqEx : WorkerPool := { Tasks := [tskEx], Concurrency := 1 }

/-- A pool with an empty batch and one worker. -/
def wpEmpty : NewWorkerPool := { MultiTasks := [], Concurrency := 1 }

/-- Entry state of `wpEmpty.Run()`. -/
def es0 : PState MultiTask := wpEmpty.start

/-- After `make(chan …, 0)`. -/
def es1 : PState MultiTask :=
  { es0 with queue := [], closed := false, chanGen := es0.chanGen + 1, pc := .spawning 0 }

/-- After spawning the single worker — on an empty batch. -/
def es2 : PState MultiTask :=
  { es1 with workers := es1.workers ++ [.idle], pc := .spawning (0 + 1) }

/-- After `wg.Add(0)`. -/
def es3 : PState MultiTask :=
  { es2 with wg := es2.wg + (es2.tasks.length : Int), pc := .sending 0 }

/-- After `close(chan)` with nothing sent. -/
def es4 : PState MultiTask := { es3 with closed := true, pc := .waiting }

/-- After `wg.Wait()` unblocks immediately: `Run` has returned while the
spawned worker is still alive. -/
def es5 : PState MultiTask := { es4 with pc := .returned }

/-- Execution of `Run` on the empty batch with `Concurrency = 1`: it spawns
one worker and returns. -/
theorem traceEmpty : Reachable es0 es5 :=
  Relation.ReflTransGen.tail
    (Relation.ReflTransGen.tail
      (Relation.ReflTransGen.tail
        (Relation.ReflTransGen.tail
          (Relation.ReflTransGen.single (Step.mkChan es0 rfl))
          (Step.spawn es1 0 rfl (by decide)))
        (Step.addWait es2 (0 + 1) rfl (by decide)))
      (Step.closeChan es3 0 rfl (by decide)))
    (Step.waitDone es4 rfl (by decide))

end WorkerPoolModel

namespace WorkerPoolModel

/-- While the dispatcher is in the send loop the channel is still open, and
once it waits on the barrier or has returned the channel is closed. -/
theorem closed_iff_of_reachable {α : Type} {s0 s : PState α} (hI : Init s0)
    (hR : Reachable s0 s) :
    (∀ k, s.pc = .sending k → s.closed = false) ∧
      ((s.pc = .waiting ∨ s.pc = .returned) → s.closed = true) := by
  have hInv := inv_reachable hI hR
  unfold Inv at hInv
  constructor
  · intro k hpc
    rw [hpc] at hInv
    simp only [InvAt] at hInv
    exact hInv.1
  · intro h
    rcases h with h | h <;>
      (rw [h] at hInv; simp only [InvAt] at hInv; exact hInv.1)

/-- Whenever the dispatcher is about to execute a send (it is in the send
loop with tasks left to send), the channel buffer has spare capacity, so the
send cannot block on the buffer being full. -/
theorem send_never_blocked {α : Type} {s0 s : PState α} (hI : Init s0)
    (hR : Reachable s0 s) {k : Nat} (hpc : s.pc = .sending k)
    (hk : k < s.tasks.length) : s.queue.length < chanCap s := by
  have hInv := inv_reachable hI hR
  unfold Inv at hInv
  rw [hpc] at hInv
  simp only [InvAt] at hInv
  obtain ⟨-, hkN, -, r, f, -, hrq, -, -, -⟩ := hInv
  unfold chanCap
  omega

/-- The first statement `Run` executes installs a fresh channel: whatever the
channel field held before the call, after the first step the buffer is empty,
the channel is open, and its generation is new. -/
theorem first_step_makes_fresh_channel {α : Type} {s0 s' : PState α}
    (hI : Init s0) (hst : Step s0 s') :
    s'.queue = [] ∧ s'.closed = false ∧ s'.chanGen = s0.chanGen + 1 ∧
      s'.pc = .spawning 0 := by
  obtain ⟨hpc, hwk, -, -⟩ := hI
  cases hst with
  | mkChan h => exact ⟨rfl, rfl, rfl, rfl⟩
  | spawn k h hlt => rw [hpc] at h; exact absurd h (by simp)
  | addWait k h hnlt => rw [hpc] at h; exact absurd h (by simp)
  | send k h hk hcap => rw [hpc] at h; exact absurd h (by simp)
  | closeChan k h hnk => rw [hpc] at h; exact absurd h (by simp)
  | waitDone h hwg => rw [hpc] at h; exact absurd h (by simp)
  | recv w i rest hw hq => rw [hwk] at hw; simp at hw
  | finish w i hw => rw [hwk] at hw; simp at hw
  | exitWorker w hw hq hc => rw [hwk] at hw; simp at hw

/-- C1: for every batch and every concurrency level `C` with
`1 ≤ C ≤ N + 5`, whenever `NewWorkerPool.Run` (and likewise
`WorkerPool.Run`) returns, every task position of the supplied sequence has
had `Process()` invoked exactly once — no position is dropped and none is
processed twice, whichever worker dequeued it. -/
theorem run_processes_each_task_exactly_once
    (wp : NewWorkerPool) (wq : WorkerPool)
    (s0 s : PState MultiTask) (t0 t : PState Task)
    (hc1 : 1 ≤ wp.Concurrency)
    (hc2 : wp.Concurrency ≤ (wp.MultiTasks.length : Int) + 5)
    (hd1 : 1 ≤ wq.Concurrency)
    (hd2 : wq.Concurrency ≤ (wq.Tasks.length : Int) + 5)
    (hs : wp.RunStart s0) (ht : wq.RunStart t0)
    (hRs : Reachable s0 s) (hps : s.pc = .returned)
    (hRt : Reachable t0 t) (hpt : t.pc = .returned) :
    (∀ j, s.processed j = if j < wp.MultiTasks.length then 1 else 0) ∧
      (∀ j, t.processed j = if j < wq.Tasks.length then 1 else 0) := by
  obtain ⟨hI, hta, hco⟩ := hs
  obtain ⟨hI', hta', hco'⟩ := ht
  have h1 := (returned_inv hI hRs hps).2.2.2.2.2
  have h2 := (returned_inv hI' hRt hpt).2.2.2.2.2
  constructor
  · intro j
    rw [h1 j, (reachable_frame hRs).1, hta]
  · intro j
    rw [h2 j, (reachable_frame hRt).1, hta']

/-- Witness for C1 on the one-task pools of `main.go` with one worker. -/
theorem run_processes_each_task_exactly_once_witness :
    (∀ j, (gs8 taskEx).processed j = if j < wpEx.MultiTasks.length then 1 else 0) ∧
      (∀ j, (gs8 tskEx).processed j = if j < wqEx.Tasks.length then 1 else 0) :=
  run_processes_each_task_exactly_once wpEx wqEx
    (gs0 taskEx) (gs8 taskEx) (gs0 tskEx) (gs8 tskEx)
    (by decide) (by decide) (by decide) (by decide)
    ⟨⟨rfl, rfl, rfl, fun _ => rfl⟩, rfl, rfl⟩
    ⟨⟨rfl, rfl, rfl, fun _ => rfl⟩, rfl, rfl⟩
    (traceG taskEx) rfl (traceG tskEx) rfl

/-- C2: for every batch with at least one task and `Concurrency ≥ 1`, when
`Run` returns the barrier's counter is zero, every `wg.Done()` has already
happened (no worker is still running a task), and every task's `Process()`
has been invoked — so `Run` cannot return before the last task's `Process()`
call has started. -/
theorem run_returns_only_after_barrier_zero
    (wp : NewWorkerPool) (s0 s : PState MultiTask)
    (hN : 1 ≤ wp.MultiTasks.length) (hC : 1 ≤ wp.Concurrency)
    (hs : wp.RunStart s0) (hR : Reachable s0 s) (hpc : s.pc = .returned) :
    s.wg = 0 ∧ runCount s.workers = 0 ∧
      ∀ j, j < wp.MultiTasks.length → 1 ≤ s.processed j := by
  obtain ⟨hI, hta, hco⟩ := hs
  have h := returned_inv hI hR hpc
  have hlen : s.tasks = wp.MultiTasks := (reachable_frame hR).1.trans hta
  refine ⟨h.2.1, h.2.2.2.2.1, ?_⟩
  intro j hj
  rw [h.2.2.2.2.2 j, hlen, if_pos hj]

/-- Witness for C2 on the one-email pool with one worker. -/
theorem run_returns_only_after_barrier_zero_witness :
    (gs8 taskEx).wg = 0 ∧ runCount (gs8 taskEx).workers = 0 ∧
      ∀ j, j < wpEx.MultiTasks.length → 1 ≤ (gs8 taskEx).processed j :=
  run_returns_only_after_barrier_zero wpEx (gs0 taskEx) (gs8 taskEx)
    (by decide) (by decide)
    ⟨⟨rfl, rfl, rfl, fun _ => rfl⟩, rfl, rfl⟩
    (traceG taskEx) rfl

/-- C3 counterexample: on the empty batch with `Concurrency = 1`, `Run`
reaches its return having spawned one worker — not zero.  The claim that no
worker routine is started on an empty batch is false: the spawn loop runs
`Concurrency` times unconditionally, before the batch length is consulted. -/
theorem run_empty_batch_starts_a_worker_cex :
    wpEmpty.MultiTasks = [] ∧ Reachable wpEmpty.start es5 ∧
      es5.pc = .returned ∧ es5.workers.length = 1 :=
  ⟨rfl, traceEmpty, rfl, rfl⟩

/-- C3 amended: for an empty task sequence and any concurrency level, `Run`
can run straight to its return without any task being processed (and without
error), but it still starts `Concurrency.toNat` worker routines rather than
none. -/
theorem run_empty_batch_returns_with_conc_workers
    (wp : NewWorkerPool) (s0 : PState MultiTask) (hE : wp.MultiTasks = [])
    (hs : wp.RunStart s0) :
    ∃ s, Reachable s0 s ∧ s.pc = .returned ∧
      s.workers.length = wp.Concurrency.toNat ∧ ∀ j, s.processed j = 0 := by
  obtain ⟨hI, hta, hco⟩ := hs
  obtain ⟨s, hR, hpc, hlen, hpr, -⟩ := run_empty_terminates s0 hI (hta.trans hE)
  refine ⟨s, hR, hpc, ?_, hpr⟩
  rw [hlen, hco]

/-- Witness for the amended C3 on the empty pool with one worker. -/
theorem run_empty_batch_returns_with_conc_workers_witness :
    ∃ s, Reachable wpEmpty.start s ∧ s.pc = .returned ∧
      s.workers.length = wpEmpty.Concurrency.toNat ∧ ∀ j, s.processed j = 0 :=
  run_empty_batch_returns_with_conc_workers wpEmpty wpEmpty.start rfl
    ⟨⟨rfl, rfl, rfl, fun _ => rfl⟩, rfl, rfl⟩

/-- C4: in every execution of `Run` (for both pool variants) the channel is
closed exactly once: the only step that changes the closed flag turns it
from open to closed, fires exactly when all tasks of the batch have been
enqueued, and moves the dispatcher straight to the barrier wait; while any
enqueue is pending the channel is open, and when the dispatcher blocks on
the barrier or has returned the channel is closed. -/
theorem run_closes_channel_once_after_all_sends
    (wp : NewWorkerPool) (wq : WorkerPool)
    (s0 : PState MultiTask) (t0 : PState Task)
    (hs : wp.RunStart s0) (ht : wq.RunStart t0) :
    ((∀ s s', Reachable s0 s → Step s s' → s.pc ≠ .start →
        s.closed ≠ s'.closed →
        s.closed = false ∧ s'.closed = true ∧
          s.pc = .sending wp.MultiTasks.length ∧ s'.pc = .waiting) ∧
      (∀ s k, Reachable s0 s → s.pc = .sending k → s.closed = false) ∧
      (∀ s, Reachable s0 s → s.pc = .waiting ∨ s.pc = .returned →
        s.closed = true)) ∧
    ((∀ u u', Reachable t0 u → Step u u' → u.pc ≠ .start →
        u.closed ≠ u'.closed →
        u.closed = false ∧ u'.closed = true ∧
          u.pc = .sending wq.Tasks.length ∧ u'.pc = .waiting) ∧
      (∀ u k, Reachable t0 u → u.pc = .sending k → u.closed = false) ∧
      (∀ u, Reachable t0 u → u.pc = .waiting ∨ u.pc = .returned →
        u.closed = true)) := by
  obtain ⟨hI, hta, hco⟩ := hs
  obtain ⟨hI', hta', hco'⟩ := ht
  refine ⟨⟨?_, ?_, ?_⟩, ?_, ?_, ?_⟩
  · intro s s' hR hst hnp hne
    have h := close_transition (inv_reachable hI hR) hst hnp hne
    refine ⟨h.1, h.2.1, ?_, h.2.2.2⟩
    rw [h.2.2.1, (reachable_frame hR).1, hta]
  · intro s k hR hpc
    exact (closed_iff_of_reachable hI hR).1 k hpc
  · intro s hR h
    exact (closed_iff_of_reachable hI hR).2 h
  · intro u u' hR hst hnp hne
    have h := close_transition (inv_reachable hI' hR) hst hnp hne
    refine ⟨h.1, h.2.1, ?_, h.2.2.2⟩
    rw [h.2.2.1, (reachable_frame hR).1, hta']
  · intro u k hR hpc
    exact (closed_iff_of_reachable hI' hR).1 k hpc
  · intro u hR h
    exact (closed_iff_of_reachable hI' hR).2 h

/-- Witness for C4: in the one-email execution the channel is closed at the
returned state. -/
theorem run_closes_channel_once_after_all_sends_witness :
    (gs8 taskEx).closed = true :=
  (run_closes_channel_once_after_all_sends wpEx wqEx (gs0 taskEx) (gs0 tskEx)
      ⟨⟨rfl, rfl, rfl, fun _ => rfl⟩, rfl, rfl⟩
      ⟨⟨rfl, rfl, rfl, fun _ => rfl⟩, rfl, rfl⟩).1.2.2
    (gs8 taskEx) (traceG taskEx) (Or.inr rfl)

/-- C5: `Run` validates nothing.  For every non-empty batch with
`Concurrency ≤ 0` (both pool variants) it starts zero worker routines and
the call never returns: no reachable state of the execution has the
dispatcher past `wg.Wait()`, and no error is ever reported — the only
outcomes of `Run` are full completion or blocking forever. -/
theorem run_nonpositive_concurrency_hangs
    (wp : NewWorkerPool) (wq : WorkerPool)
    (s0 : PState MultiTask) (t0 : PState Task)
    (hc : wp.Concurrency ≤ 0) (hn : wp.MultiTasks ≠ [])
    (hc' : wq.Concurrency ≤ 0) (hn' : wq.Tasks ≠ [])
    (hs : wp.RunStart s0) (ht : wq.RunStart t0) :
    (∀ s, Reachable s0 s → s.workers = [] ∧ s.pc ≠ .returned) ∧
      ∀ u, Reachable t0 u → u.workers = [] ∧ u.pc ≠ .returned := by
  obtain ⟨hI, hta, hco⟩ := hs
  obtain ⟨hI', hta', hco'⟩ := ht
  constructor
  · intro s hR
    obtain ⟨hw, hat⟩ := invNoWorkers_reachable (by rw [hco]; exact hc)
      (by rw [hta]; exact hn) hI hR
    refine ⟨hw, ?_⟩
    intro hpc
    rw [hpc] at hat
    simp only [NoWorkAt] at hat
  · intro u hR
    obtain ⟨hw, hat⟩ := invNoWorkers_reachable (by rw [hco']; exact hc')
      (by rw [hta']; exact hn') hI' hR
    refine ⟨hw, ?_⟩
    intro hpc
    rw [hpc] at hat
    simp only [NoWorkAt] at hat

/-- A one-email pool misconfigured with `Concurrency = 0`. -/
def wpBad : NewWorkerPool := { MultiTasks := [taskEx], Concurrency := 0 }

/-- A one-task pool misconfigured with `Concurrency = 0`. -/
def wqBad : WorkerPool := { Tasks := [tskEx], Concurrency := 0 }

/-- Witness for C5 at the entry states of the misconfigured pools. -/
theorem run_nonpositive_concurrency_hangs_witness :
    wpBad.start.workers = [] ∧ wpBad.start.pc ≠ .returned :=
  (run_nonpositive_concurrency_hangs wpBad wqBad wpBad.start wqBad.start
      (by decide) (by decide) (by decide) (by decide)
      ⟨⟨rfl, rfl, rfl, fun _ => rfl⟩, rfl, rfl⟩
      ⟨⟨rfl, rfl, rfl, fun _ => rfl⟩, rfl, rfl⟩).1
    wpBad.start Relation.ReflTransGen.refl

/-- C6: `Run` launches exactly `Concurrency` worker loops, and every worker
loop terminates: when `Run` has returned, `Concurrency` workers were
spawned, none is processing a task, and the execution can continue — with
no further `Process()` invocation — until every worker has observed the
drained, closed channel and exited its loop; extra workers beyond the task
count find no work and exit cleanly. -/
theorem run_spawns_conc_workers_and_all_terminate
    (wp : NewWorkerPool) (s0 s : PState MultiTask)
    (hC : 1 ≤ wp.Concurrency) (hs : wp.RunStart s0)
    (hR : Reachable s0 s) (hpc : s.pc = .returned) :
    ((s.workers.length : Int) = wp.Concurrency ∧
        ∀ w ∈ s.workers, w = .idle ∨ w = .done) ∧
      ∃ s', Reachable s s' ∧ s'.pc = .returned ∧
        s'.workers.length = s.workers.length ∧
        (∀ w ∈ s'.workers, w = .done) ∧ s'.processed = s.processed := by
  obtain ⟨hI, hta, hco⟩ := hs
  have h := returned_inv hI hR hpc
  have hconc : s.conc = wp.Concurrency := (reachable_frame hR).2.trans hco
  have hio := runCount_zero_cases h.2.2.2.2.1
  refine ⟨⟨?_, hio⟩, ?_⟩
  · rw [h.2.2.1, hconc]
    exact Int.toNat_of_nonneg (by omega)
  · obtain ⟨t, htr, hpct, hlen, hdone, hproc, -, -, -⟩ :=
      drain_aux (s.workers.countP isIdle) s rfl h.1 h.2.2.2.1 hio
    exact ⟨t, htr, by rw [hpct, hpc], hlen, hdone, hproc⟩

/-- Witness for C6 on the one-email pool with one worker. -/
theorem run_spawns_conc_workers_and_all_terminate_witness :
    (((gs8 taskEx).workers.length : Int) = wpEx.Concurrency ∧
        ∀ w ∈ (gs8 taskEx).workers, w = .idle ∨ w = .done) ∧
      ∃ s', Reachable (gs8 taskEx) s' ∧ s'.pc = .returned ∧
        s'.workers.length = (gs8 taskEx).workers.length ∧
        (∀ w ∈ s'.workers, w = .done) ∧ s'.processed = (gs8 taskEx).processed :=
  run_spawns_conc_workers_and_all_terminate wpEx (gs0 taskEx) (gs8 taskEx)
    (by decide) ⟨⟨rfl, rfl, rfl, fun _ => rfl⟩, rfl, rfl⟩
    (traceG taskEx) rfl

/-- C7: the channel `Run` creates has capacity equal to the batch length,
and in consequence the dispatcher's sends never block on the channel's own
capacity: whenever it is in the send loop with a task still to send, the
buffer has spare room (both pool variants). -/
theorem run_channel_capacity_equals_batch_length
    (wp : NewWorkerPool) (wq : WorkerPool)
    (s0 : PState MultiTask) (t0 : PState Task)
    (hs : wp.RunStart s0) (ht : wq.RunStart t0) :
    (chanCap s0 = wp.MultiTasks.length ∧
        ∀ s k, Reachable s0 s → s.pc = .sending k → k < wp.MultiTasks.length →
          s.queue.length < chanCap s) ∧
      chanCap t0 = wq.Tasks.length ∧
        ∀ u k, Reachable t0 u → u.pc = .sending k → k < wq.Tasks.length →
          u.queue.length < chanCap u := by
  obtain ⟨hI, hta, hco⟩ := hs
  obtain ⟨hI', hta', hco'⟩ := ht
  refine ⟨⟨?_, ?_⟩, ?_, ?_⟩
  · show s0.tasks.length = wp.MultiTasks.length
    rw [hta]
  · intro s k hR hpc hk
    exact send_never_blocked hI hR hpc
      (by rw [(reachable_frame hR).1, hta]; exact hk)
  · show t0.tasks.length = wq.Tasks.length
    rw [hta']
  · intro u k hR hpc hk
    exact send_never_blocked hI' hR hpc
      (by rw [(reachable_frame hR).1, hta']; exact hk)

/-- Witness for C7 on the one-element pools. -/
theorem run_channel_capacity_equals_batch_length_witness :
    chanCap (gs0 taskEx) = wpEx.MultiTasks.length :=
  (run_channel_capacity_equals_batch_length wpEx wqEx (gs0 taskEx) (gs0 tskEx)
      ⟨⟨rfl, rfl, rfl, fun _ => rfl⟩, rfl, rfl⟩
      ⟨⟨rfl, rfl, rfl, fun _ => rfl⟩, rfl, rfl⟩).1.1

/-- C8: tasks are immutable once constructed: `Process()` on either task
variant (and through the `MultiTask` interface) returns the receiver with
every field unchanged, and no step of a `Run` execution ever modifies the
task slice — after `Run` returns every task holds exactly the field values
it was constructed with. -/
theorem process_leaves_task_fields_unchanged
    (m : MultiTask) (s0 s : PState MultiTask) (hR : Reachable s0 s) :
    (MultiTask.Process m).1 = m ∧ s.tasks = s0.tasks ∧
      (∀ e : EmailTask, (EmailTask.Process e).1 = e) ∧
      ∀ t : ImageProcessingTask, (ImageProcessingTask.Process t).1 = t := by
  refine ⟨?_, (reachable_frame hR).1, fun _ => rfl, fun _ => rfl⟩
  cases m <;> rfl

/-- Witness for C8 on the heterogeneous example task and the one-email
execution. -/
theorem process_leaves_task_fields_unchanged_witness :
    (MultiTask.Process taskEx).1 = taskEx ∧
      (gs8 taskEx).tasks = (gs0 taskEx).tasks ∧
      (∀ e : EmailTask, (EmailTask.Process e).1 = e) ∧
      ∀ t : ImageProcessingTask, (ImageProcessingTask.Process t).1 = t :=
  process_leaves_task_fields_unchanged taskEx (gs0 taskEx) (gs8 taskEx)
    (traceG taskEx)

/-- C9: `Run` modifies only the pool's channel state: along every execution
(both pool variants) the task slice and the `Concurrency` field keep the
values they had at the call, and the first statement of `Run` replaces the
channel field with a freshly created channel — empty, open, and of a new
generation — so each batch runs on its own queue. -/
theorem run_modifies_only_channel_state
    (wp : NewWorkerPool) (wq : WorkerPool)
    (s0 : PState MultiTask) (t0 : PState Task)
    (hs : wp.RunStart s0) (ht : wq.RunStart t0) :
    ((∀ s, Reachable s0 s → s.tasks = wp.MultiTasks ∧ s.conc = wp.Concurrency) ∧
        ∀ s', Step s0 s' → s'.queue = [] ∧ s'.closed = false ∧
          s'.chanGen = s0.chanGen + 1 ∧ s'.pc = .spawning 0) ∧
      (∀ u, Reachable t0 u → u.tasks = wq.Tasks ∧ u.conc = wq.Concurrency) ∧
        ∀ u', Step t0 u' → u'.queue = [] ∧ u'.closed = false ∧
          u'.chanGen = t0.chanGen + 1 ∧ u'.pc = .spawning 0 := by
  obtain ⟨hI, hta, hco⟩ := hs
  obtain ⟨hI', hta', hco'⟩ := ht
  refine ⟨⟨?_, ?_⟩, ?_, ?_⟩
  · intro s hR
    have h := reachable_frame hR
    exact ⟨h.1.trans hta, h.2.trans hco⟩
  · intro s' hst
    exact first_step_makes_fresh_channel hI hst
  · intro u hR
    have h := reachable_frame hR
    exact ⟨h.1.trans hta', h.2.trans hco'⟩
  · intro u' hst
    exact first_step_makes_fresh_channel hI' hst

/-- Witness for C9 at the returned state of the one-email execution. -/
theorem run_modifies_only_channel_state_witness :
    (gs8 taskEx).tasks = wpEx.MultiTasks ∧ (gs8 taskEx).conc = wpEx.Concurrency :=
  (run_modifies_only_channel_state wpEx wqEx (gs0 taskEx) (gs0 tskEx)
      ⟨⟨rfl, rfl, rfl, fun _ => rfl⟩, rfl, rfl⟩
      ⟨⟨rfl, rfl, rfl, fun _ => rfl⟩, rfl, rfl⟩).1.1
    (gs8 taskEx) (traceG taskEx)

end WorkerPoolModel

namespace FluentBuilder

/-- Product of the fluent builder demo: `type Pizza struct` with two string
fields and three booleans. -/
structure Pizza where
  Size : String
  Crust : String
  Cheese : Bool
  Pepperoni : Bool
  Mushrooms : Bool
  deriving DecidableEq

/-- Go zero value of `Pizza` — the state inside `&ConcretePizzaBuilder{}`. -/
def Pizza.zero : Pizza :=
  { Size := "", Crust := "", Cheese := false, Pepperoni := false, Mushrooms := false }

/-- `ConcretePizzaBuilder` holds the pizza being built.  The Go methods use
a pointer receiver and return that same pointer, so each method is embedded
as a state transformer whose result is both the updated receiver and the
returned builder. -/
structure ConcretePizzaBuilder where
  pizza : Pizza
  deriving DecidableEq

/-- `SetSize` assigns the size field and returns the builder. -/
def ConcretePizzaBuilder.SetSize (p : ConcretePizzaBuilder) (size : String) :
    ConcretePizzaBuilder :=
  { p with pizza := { p.pizza with Size := size } }

/-- `SetCrust` assigns the crust field and returns the builder. -/
def ConcretePizzaBuilder.SetCrust (p : ConcretePizzaBuilder) (crust : String) :
    ConcretePizzaBuilder :=
  { p with pizza := { p.pizza with Crust := crust } }

/-- `AddCheese` sets the cheese flag and returns the builder. -/
def ConcretePizzaBuilder.AddCheese (p : ConcretePizzaBuilder) :
    ConcretePizzaBuilder :=
  { p with pizza := { p.pizza with Cheese := true } }

/-- `AddPepperoni` sets the pepperoni flag and returns the builder. -/
def ConcretePizzaBuilder.AddPepperoni (p : ConcretePizzaBuilder) :
    ConcretePizzaBuilder :=
  { p with pizza := { p.pizza with Pepperoni := true } }

/-- `AddMushrooms` sets the mushrooms flag and returns the builder. -/
def ConcretePizzaBuilder.AddMushrooms (p : ConcretePizzaBuilder) :
    ConcretePizzaBuilder :=
  { p with pizza := { p.pizza with Mushrooms := true } }

/-- `Build` validates the two mandatory fields and returns the accumulated
pizza; it assigns nothing, so the builder's state is left as it was. -/
def ConcretePizzaBuilder.Build (p : ConcretePizzaBuilder) :
    Except String Pizza :=
  if p.pizza.Size = "" then
    Except.error "pizza size is mandatory and cannot be empty"
  else if p.pizza.Crust = "" then
    Except.error "pizza crust is mandatory and cannot be empty"
  else
    Except.ok p.pizza

/-- Director method `CreateMargheritaPizza`: runs
`SetSize("Large").SetCrust("Thin").AddCheese().Build()` on the caller's
builder; the result pairs `Build`'s return value with the builder as the
caller sees it afterwards (the chain mutated it through the pointer). -/
def PizzaDirector.CreateMargheritaPizza (b : ConcretePizzaBuilder) :
    Except String Pizza × ConcretePizzaBuilder :=
  (((b.SetSize "Large").SetCrust "Thin").AddCheese.Build,
    ((b.SetSize "Large").SetCrust "Thin").AddCheese)

/-- Director method `CreateMushroomPizza`: runs
`SetSize("Large").SetCrust("Thin").AddMushrooms().Build()` on the caller's
builder, likewise returning the result and the mutated builder. -/
def PizzaDirector.CreateMushroomPizza (b : ConcretePizzaBuilder) :
    Except String Pizza × ConcretePizzaBuilder :=
  (((b.SetSize "Large").SetCrust "Thin").AddMushrooms.Build,
    ((b.SetSize "Large").SetCrust "Thin").AddMushrooms)

/-- C10: `Build` never resets the builder's accumulated state, and the
mushroom-creation chain never clears the cheese flag; consequently, in the
`demonstrateFluentBuilder` sequence — `CreateMargheritaPizza` followed by
`CreateMushroomPizza` on the same builder — the returned mushroom pizza
still has `Cheese = true` (with size, crust and mushrooms as requested). -/
theorem build_does_not_reset_builder_state :
    (∀ b : ConcretePizzaBuilder,
        ((PizzaDirector.CreateMushroomPizza b).2).pizza.Cheese = b.pizza.Cheese) ∧
      (PizzaDirector.CreateMargheritaPizza { pizza := Pizza.zero }).1 =
        Except.ok { Size := "Large", Crust := "Thin", Cheese := true,
                    Pepperoni := false, Mushrooms := false } ∧
      (PizzaDirector.CreateMushroomPizza
          (PizzaDirector.CreateMargheritaPizza { pizza := Pizza.zero }).2).1 =
        Except.ok { Size := "Large", Crust := "Thin", Cheese := true,
                    Pepperoni := false, Mushrooms := true } := by
  refine ⟨fun b => rfl, ?_, ?_⟩ <;> rfl

/-- Witness for C10 at the fresh builder of `demonstrateFluentBuilder`. -/
theorem build_does_not_reset_builder_state_witness :
    ((PizzaDirector.CreateMushroomPizza { pizza := Pizza.zero }).2).pizza.Cheese =
      (⟨Pizza.zero⟩ : ConcretePizzaBuilder).pizza.Cheese :=
  build_does_not_reset_builder_state.1 { pizza := Pizza.zero }

end FluentBuilder
